import Mathlib

/-!
Verification of the Bookmarks application core: the activity-feed
action recorder (`actions/utils.py: create_action`), the dashboard feed
query (`account/views.py: dashboard`), the Redis-backed view counter and
ranking (`images/views.py: image_detail`, `image_ranking`), the like
denormalisation signal (`images/signals.py`), the like/unlike endpoint
(`images/views.py: image_like`) and the follow graph endpoints
(`account/views.py: user_follow`, `user_unfollow`).

The Django/Redis layers are embedded shallowly: the relational tables
are lists of records, QuerySet filters are list filters, ORDER BY is an
insertion sort, Redis is a record holding the counters and the sorted
set, and a connection failure is an `Except.error`.
-/

/-! ## Generic insertion sort (models SQL ORDER BY, Redis ZRANGE order and
Python list.sort) -/

def insertLe {α : Type} (le : α → α → Bool) (x : α) : List α → List α
  | [] => [x]
  | y :: ys => if le x y then x :: y :: ys else y :: insertLe le x ys

def sortLe {α : Type} (le : α → α → Bool) : List α → List α
  | [] => []
  | x :: xs => insertLe le x (sortLe le xs)

/-! ## ActionRecorder: `actions/models.py: Action` and
`actions/utils.py: create_action`

An `ActionEntry` is a row of the Action table: user FK, verb, optional
generic target stored as a (content-type id, object id) pair, and the
creation timestamp (seconds, as an integer clock). -/

structure ActionEntry where
  user : Nat
  verb : String
  targetCt : Option Nat
  targetId : Option Nat
  created : Int
  deriving DecidableEq, Repr

/-- The queryset `Action.objects.filter(user_id=..., verb=..., created__gte=now-60)`,
further filtered by `(target_ct, target_id)` when a target is supplied
(`if target:` in the source — no target filter at all when target is None). -/
def similar_actions (db : List ActionEntry) (now : Int) (u : Nat) (v : String)
    (tgt : Option (Nat × Nat)) : List ActionEntry :=
  let base := db.filter fun a =>
    a.user == u && a.verb == v && decide (now - 60 ≤ a.created)
  match tgt with
  | some (ct, oid) => base.filter fun a =>
      a.targetCt == some ct && a.targetId == some oid
  | none => base

/-- `create_action(user, verb, target)`: insert a fresh Action row and return
True unless a similar action exists in the last minute, in which case do
nothing and return False. The row list plays the role of the table. -/
def newAction (u : Nat) (v : String) (tgt : Option (Nat × Nat)) (now : Int) : ActionEntry :=
  { user := u, verb := v, targetCt := tgt.map (·.1), targetId := tgt.map (·.2), created := now }

def create_action (db : List ActionEntry) (now : Int) (u : Nat) (v : String)
    (tgt : Option (Nat × Nat)) : Bool × List ActionEntry :=
  if (similar_actions db now u v tgt).isEmpty then
    (true, db ++ [newAction u v tgt now])
  else
    (false, db)

/-- An entry with exactly this (actor, verb, target) key, used to count
stored rows per key. -/
def matchesKey (a : ActionEntry) (u : Nat) (v : String) (tgt : Option (Nat × Nat)) : Bool :=
  a.user == u && a.verb == v && a.targetCt == tgt.map (·.1) && a.targetId == tgt.map (·.2)

/-- The row-level predicate of the dedup queryset: same user, same verb,
created in the last 60 seconds, and — only when a target is supplied —
the same (content type, object id). -/
def isSimilar (a : ActionEntry) (t : Int) (u : Nat) (v : String)
    (tgt : Option (Nat × Nat)) : Bool :=
  a.user == u && a.verb == v && decide (t - 60 ≤ a.created) &&
    (match tgt with
     | some (ct, oid) => a.targetCt == some ct && a.targetId == some oid
     | none => true)

/-! ## Dashboard feed: `account/views.py: dashboard`

`Action.objects.exclude(user=request.user)`, then — when the viewer follows
anyone — `.filter(user_id__in=following_ids)`; the Action Meta ordering is
`['-created']` (newest first) and the queryset is sliced `[:10]`. -/

def actionLe (a b : ActionEntry) : Bool := decide (b.created ≤ a.created)

def dashboard (db : List ActionEntry) (viewer : Nat) (following : List Nat) :
    List ActionEntry :=
  let base := db.filter fun a => !(a.user == viewer)
  let acts := if following.isEmpty then base
              else base.filter fun a => following.contains a.user
  (sortLe actionLe acts).take 10

/-- The feed as the spec describes it: entries authored by followed users
when the viewer follows anyone, else all entries except the viewer's own;
newest first; capped to 10. -/
def dashboardSpec (db : List ActionEntry) (viewer : Nat) (following : List Nat) :
    List ActionEntry :=
  let acts := if following.isEmpty then db.filter (fun a => !(a.user == viewer))
              else db.filter (fun a => following.contains a.user)
  (sortLe actionLe acts).take 10

/-! ## Redis-backed view counter and ranking: `images/views.py`

`image_detail` runs `r.incr(f'image:{id}:views')` and
`r.zincrby('image_ranking', 1, image.id)`; `image_ranking` runs
`r.zrange('image_ranking', 0, -1, desc=True)[:10]`, fetches
`Image.objects.filter(id__in=ids)` and re-sorts them by
`ids.index(x.id)`. A Redis connection failure raises, and neither view
catches it — modelled as `Except.error` threaded by bind. -/

structure ImageRec where
  id : Nat
  usersLike : List Nat
  totalLikes : Nat
  deriving DecidableEq, Repr

structure Redis where
  available : Bool
  views : Nat → Nat
  zset : List (Nat × Int)

def connectionError : String := "Error connecting to Redis"

def Redis.incr (r : Redis) (key : Nat) : Except String (Nat × Redis) :=
  if r.available then
    .ok (r.views key + 1,
      { r with views := fun k => if k = key then r.views key + 1 else r.views k })
  else .error connectionError

def zsetIncr (l : List (Nat × Int)) (delta : Int) (member : Nat) : List (Nat × Int) :=
  match l with
  | [] => [(member, delta)]
  | (a, s) :: rest =>
      if a = member then (a, s + delta) :: rest
      else (a, s) :: zsetIncr rest delta member

def zscore (l : List (Nat × Int)) (member : Nat) : Option Int :=
  (l.find? (fun p => p.1 == member)).map (·.2)

def Redis.zincrby (r : Redis) (delta : Int) (member : Nat) :
    Except String (Int × Redis) :=
  if r.available then
    .ok ((zscore r.zset member).getD 0 + delta,
      { r with zset := zsetIncr r.zset delta member })
  else .error connectionError

def scoreLe (a b : Nat × Int) : Bool := decide (b.2 ≤ a.2)

def Redis.zrangeDesc (r : Redis) : Except String (List Nat) :=
  if r.available then .ok ((sortLe scoreLe r.zset).map (·.1))
  else .error connectionError

/-- The view-count path of `image_detail`: INCR the per-image counter,
ZINCRBY the ranking by 1, return the new counter value. -/
def record_view (r : Redis) (imageId : Nat) : Except String (Nat × Redis) := do
  let (total, r1) ← r.incr imageId
  let (_, r2) ← r1.zincrby 1 imageId
  pure (total, r2)

def record_view_iter (r : Redis) (e : Nat) : Nat → Except String (Nat × Redis)
  | 0 => .ok (r.views e, r)
  | n + 1 => do
      let (_, r1) ← record_view r e
      record_view_iter r1 e n

/-- Python's `list.index` on a list of ids. -/
def listIndex (i : Nat) : List Nat → Nat
  | [] => 0
  | j :: rest => if i = j then 0 else listIndex i rest + 1

def imageKeyLe (ids : List Nat) (x y : ImageRec) : Bool :=
  decide (listIndex x.id ids ≤ listIndex y.id ids)

/-- `image_ranking` (top_ranked with n = 10): top ids by descending score,
relational fetch by id membership, then re-sort into the rank order. -/
def image_ranking (r : Redis) (db : List ImageRec) : Except String (List ImageRec) := do
  let ranking ← r.zrangeDesc
  let ids := ranking.take 10
  let most_viewed := db.filter (fun img => ids.contains img.id)
  pure (sortLe (imageKeyLe ids) most_viewed)

/-- The top-10 image ids in descending score order, as `image_ranking`
reads them from the sorted set. -/
def rankingIds (r : Redis) : List Nat := ((sortLe scoreLe r.zset).map (·.1)).take 10

/-! ## Likes: `images/signals.py: users_like_changed` and
`images/views.py: image_like` -/

/-- The m2m_changed receiver: recompute `total_likes` from the current
`users_like` set and save. -/
def users_like_changed (img : ImageRec) : ImageRec :=
  { img with totalLikes := img.usersLike.length }

/-- `image.users_like.add(user)` (a set add: no duplicate row) followed by
the m2m_changed signal. -/
def addLike (img : ImageRec) (u : Nat) : ImageRec :=
  users_like_changed
    (if img.usersLike.contains u then img
     else { img with usersLike := img.usersLike ++ [u] })

/-- `image.users_like.remove(user)` followed by the m2m_changed signal. -/
def removeLike (img : ImageRec) (u : Nat) : ImageRec :=
  users_like_changed { img with usersLike := img.usersLike.filter (fun x => !(x == u)) }

/-- The ContentType row id of the Image model, as
`ContentType.objects.get_for_model(image)` resolves it. -/
def imageContentType : Nat := 1

/-- The `image_like` view: the guard `if image_id and action:` passes only
when both POST parameters are present and truthy (a missing id or a
non-numeric/empty id string is `none`; the action string must also be
non-empty, since an empty string is falsy). It then looks the image up,
adds the user (action == 'like', also recording a 'likes' action) or
removes the user (any other action), answering {'status': 'ok'}; it answers
{'status': 'error'} when the guard fails or the image is absent. -/
def image_like (images : List ImageRec) (actions : List ActionEntry) (now : Int)
    (userId : Nat) (imageId : Option Nat) (action : Option String) :
    String × List ImageRec × List ActionEntry :=
  match imageId, action with
  | some iid, some act =>
    if act == "" then ("error", images, actions)
    else if images.any (fun img => img.id == iid) then
      if act == "like" then
        ("ok",
         images.map (fun img => if img.id == iid then addLike img userId else img),
         (create_action actions now userId "likes" (some (imageContentType, iid))).2)
      else
        ("ok",
         images.map (fun img => if img.id == iid then removeLike img userId else img),
         actions)
    else ("error", images, actions)
  | _, _ => ("error", images, actions)

/-! ## Follow graph: `account/views.py: user_follow`, `user_unfollow` and
`account/models.py: Contact`

A contact row is a (user_from, user_to) pair: user_from follows user_to.
`user.followers.add(request.user)` inserts (request.user, user); the add is
guarded by `if request.user != user`, and skipped entirely when no username
is posted; a username that matches no user raises Http404. -/

def user_follow (users : List Nat) (contacts : List (Nat × Nat)) (requester : Nat)
    (username : Option Nat) : String × List (Nat × Nat) :=
  match username with
  | none => ("User followed successfully", contacts)
  | some uname =>
    if users.contains uname then
      if requester ≠ uname then
        ("User followed successfully",
         if contacts.contains (requester, uname) then contacts
         else contacts ++ [(requester, uname)])
      else ("User followed successfully", contacts)
    else ("404 Not Found", contacts)

def user_unfollow (users : List Nat) (contacts : List (Nat × Nat)) (requester : Nat)
    (username : Option Nat) : String × List (Nat × Nat) :=
  match username with
  | none => ("User unfollowed successfully", contacts)
  | some uname =>
    if users.contains uname then
      if requester ≠ uname then
        ("User unfollowed successfully",
         contacts.filter (fun c => !(c == (requester, uname))))
      else ("User unfollowed successfully", contacts)
    else ("404 Not Found", contacts)

/-- Contact-table states reachable from an empty follow graph through the
two endpoints. -/
inductive ReachableContacts (users : List Nat) : List (Nat × Nat) → Prop
  | init : ReachableContacts users []
  | follow (c : List (Nat × Nat)) (req : Nat) (uname : Option Nat) :
      ReachableContacts users c →
      ReachableContacts users (user_follow users c req uname).2
  | unfollow (c : List (Nat × Nat)) (req : Nat) (uname : Option Nat) :
      ReachableContacts users c →
      ReachableContacts users (user_unfollow users c req uname).2

theorem insertLe_perm {α : Type} (le : α → α → Bool) (x : α) (l : List α) :
    (insertLe le x l).Perm (x :: l) := by
  induction l with
  | nil => simp [insertLe]
  | cons y ys ih =>
    simp only [insertLe]
    split
    · exact List.Perm.refl _
    · exact ((ih.cons y).trans (List.Perm.swap x y ys))

theorem sortLe_perm {α : Type} (le : α → α → Bool) (l : List α) :
    (sortLe le l).Perm l := by
  induction l with
  | nil => simp [sortLe]
  | cons x xs ih =>
    exact (insertLe_perm le x (sortLe le xs)).trans (ih.cons x)

theorem mem_insertLe {α : Type} (le : α → α → Bool) (x a : α) (l : List α) :
    a ∈ insertLe le x l ↔ a = x ∨ a ∈ l := by
  have h := (insertLe_perm le x l).mem_iff (a := a)
  simpa using h

theorem insertLe_pairwise {α : Type} (le : α → α → Bool)
    (htot : ∀ a b, le a b = false → le b a = true)
    (htrans : ∀ a b c, le a b = true → le b c = true → le a c = true)
    (x : α) (l : List α) (hl : l.Pairwise (fun a b => le a b = true)) :
    (insertLe le x l).Pairwise (fun a b => le a b = true) := by
  induction l with
  | nil => simp [insertLe]
  | cons y ys ih =>
    simp only [insertLe]
    rcases List.pairwise_cons.mp hl with ⟨hy, hys⟩
    by_cases hxy : le x y = true
    · simp only [hxy, if_true]
      refine List.pairwise_cons.mpr ⟨?_, hl⟩
      intro b hb
      rcases List.mem_cons.mp hb with hb | hb
      · subst hb; exact hxy
      · exact htrans x y b hxy (hy b hb)
    · have hxy' : le x y = false := by
        cases h : le x y with
        | false => rfl
        | true => exact absurd h hxy
      simp only [hxy', Bool.false_eq_true, if_false]
      refine List.pairwise_cons.mpr ⟨?_, ih hys⟩
      intro b hb
      rcases (mem_insertLe le x b ys).mp hb with hb | hb
      · rw [hb]; exact htot x y hxy'
      · exact hy b hb

theorem sortLe_pairwise {α : Type} (le : α → α → Bool)
    (htot : ∀ a b, le a b = false → le b a = true)
    (htrans : ∀ a b c, le a b = true → le b c = true → le a c = true)
    (l : List α) :
    (sortLe le l).Pairwise (fun a b => le a b = true) := by
  induction l with
  | nil => simp [sortLe]
  | cons x xs ih => exact insertLe_pairwise le htot htrans x (sortLe le xs) ih

theorem similar_actions_nil (db : List ActionEntry) (t : Int) (u : Nat) (v : String)
    (tgt : Option (Nat × Nat)) (h0 : ∀ a ∈ db, ¬ (a.user = u ∧ a.verb = v)) :
    similar_actions db t u v tgt = [] := by
  have hbase : db.filter
      (fun a => a.user == u && a.verb == v && decide (t - 60 ≤ a.created)) = [] := by
    apply List.filter_eq_nil_iff.mpr
    intro a ha
    have := h0 a ha
    simp only [Bool.and_eq_true, beq_iff_eq, decide_eq_true_eq, not_and]
    intro h
    exact absurd ⟨h.1, h.2⟩ this
  unfold similar_actions
  cases tgt with
  | none => exact hbase
  | some p => cases p with
    | mk ct oid => simp only [hbase, List.filter_nil]

theorem mem_similar_actions_self (db : List ActionEntry) (t1 t2 : Int) (u : Nat)
    (v : String) (tgt : Option (Nat × Nat)) (hw : t2 - 60 ≤ t1) :
    newAction u v tgt t1 ∈ similar_actions (db ++ [newAction u v tgt t1]) t2 u v tgt := by
  unfold similar_actions
  have hmem : newAction u v tgt t1 ∈
      (db ++ [newAction u v tgt t1]).filter
        (fun a => a.user == u && a.verb == v && decide (t2 - 60 ≤ a.created)) := by
    apply List.mem_filter.mpr
    refine ⟨by simp, ?_⟩
    simpa [newAction] using hw
  cases tgt with
  | none => exact hmem
  | some p =>
    cases p with
    | mk ct oid =>
      apply List.mem_filter.mpr
      refine ⟨hmem, ?_⟩
      simp [newAction]

/-- C1: two `create_action` calls with the same (actor, verb, target) within
60 seconds, from a table holding no action of this actor with this verb:
the first inserts and returns True, the second returns False, performs no
insertion, and exactly one row with this key is stored. -/
theorem create_action_dedup_within_window (db : List ActionEntry) (t1 t2 : Int)
    (u : Nat) (v : String) (tgt : Option (Nat × Nat))
    (h0 : ∀ a ∈ db, ¬ (a.user = u ∧ a.verb = v))
    (h12 : t1 ≤ t2) (hw : t2 ≤ t1 + 60) :
    (create_action db t1 u v tgt).1 = true ∧
    (create_action (create_action db t1 u v tgt).2 t2 u v tgt).1 = false ∧
    (create_action (create_action db t1 u v tgt).2 t2 u v tgt).2
      = (create_action db t1 u v tgt).2 ∧
    ((create_action (create_action db t1 u v tgt).2 t2 u v tgt).2.filter
      (fun a => matchesKey a u v tgt)).length = 1 := by
  have h1 : similar_actions db t1 u v tgt = [] := similar_actions_nil db t1 u v tgt h0
  have hc1 : create_action db t1 u v tgt = (true, db ++ [newAction u v tgt t1]) := by
    unfold create_action
    rw [h1]
    rfl
  have hw' : t2 - 60 ≤ t1 := by omega
  have hmem := mem_similar_actions_self db t1 t2 u v tgt hw'
  have hne : (similar_actions (db ++ [newAction u v tgt t1]) t2 u v tgt).isEmpty
      = false := by
    cases hh : similar_actions (db ++ [newAction u v tgt t1]) t2 u v tgt with
    | nil => rw [hh] at hmem; exact absurd hmem (List.not_mem_nil _)
    | cons a l => rfl
  have hc2 : create_action (db ++ [newAction u v tgt t1]) t2 u v tgt
      = (false, db ++ [newAction u v tgt t1]) := by
    unfold create_action
    rw [hne]
    rfl
  rw [hc1]
  simp only [hc2]
  refine ⟨trivial, trivial, trivial, ?_⟩
  rw [List.filter_append]
  have hdbnil : db.filter (fun a => matchesKey a u v tgt) = [] := by
    apply List.filter_eq_nil_iff.mpr
    intro a ha
    have := h0 a ha
    intro hm
    simp only [matchesKey, Bool.and_eq_true, beq_iff_eq] at hm
    exact this ⟨hm.1.1.1, hm.1.1.2⟩
  rw [hdbnil]
  simp [matchesKey, newAction]

theorem similar_actions_eq_filter (db : List ActionEntry) (t : Int) (u : Nat)
    (v : String) (tgt : Option (Nat × Nat)) :
    similar_actions db t u v tgt = db.filter (fun a => isSimilar a t u v tgt) := by
  unfold similar_actions isSimilar
  cases tgt with
  | none => simp
  | some p =>
    cases p with
    | mk ct oid =>
      dsimp only
      rw [List.filter_filter]
      apply List.filter_congr
      intro a ha
      rw [Bool.and_comm]

theorem create_action_inserts (db : List ActionEntry) (t : Int) (u : Nat)
    (v : String) (tgt : Option (Nat × Nat))
    (h : ∀ a ∈ db, isSimilar a t u v tgt = false) :
    create_action db t u v tgt = (true, db ++ [newAction u v tgt t]) := by
  unfold create_action
  rw [similar_actions_eq_filter]
  have : db.filter (fun a => isSimilar a t u v tgt) = [] := by
    apply List.filter_eq_nil_iff.mpr
    intro a ha
    simp [h a ha]
  rw [this]
  rfl

theorem isSimilar_false_of_user (a : ActionEntry) (t : Int) (u : Nat) (v : String)
    (tgt : Option (Nat × Nat)) (h : a.user ≠ u) : isSimilar a t u v tgt = false := by
  simp [isSimilar, h]

theorem isSimilar_false_of_key (a : ActionEntry) (t : Int) (u : Nat) (v : String)
    (tgt : Option (Nat × Nat)) (h : ¬ (a.user = u ∧ a.verb = v)) :
    isSimilar a t u v tgt = false := by
  by_cases hu : a.user = u
  · have hv : a.verb ≠ v := fun hv => h ⟨hu, hv⟩
    simp [isSimilar, hv]
  · simp [isSimilar, hu]

theorem isSimilar_newAction_false_of_verb (u : Nat) (v1 v2 : String)
    (tgt1 tgt2 : Option (Nat × Nat)) (t1 t2 : Int) (hv : v1 ≠ v2) :
    isSimilar (newAction u v1 tgt1 t1) t2 u v2 tgt2 = false := by
  simp [isSimilar, newAction, hv]

theorem isSimilar_newAction_false_of_target (u : Nat) (v1 v2 : String)
    (tgt1 tgt2 : Option (Nat × Nat)) (t1 t2 : Int)
    (hne : tgt1 ≠ tgt2) (hs : tgt2.isSome = true) :
    isSimilar (newAction u v1 tgt1 t1) t2 u v2 tgt2 = false := by
  rcases Option.isSome_iff_exists.mp hs with ⟨p, hp⟩
  subst hp
  cases p with
  | mk ct2 oid2 =>
    cases tgt1 with
    | none => simp [isSimilar, newAction]
    | some q =>
      cases q with
      | mk ct1 oid1 =>
        have hq : ct1 ≠ ct2 ∨ oid1 ≠ oid2 := by
          by_contra hcon
          push_neg at hcon
          exact hne (by rw [hcon.1, hcon.2])
        rcases hq with h | h
        · simp [isSimilar, newAction, h]
        · simp [isSimilar, newAction, h]

theorem isSimilar_newAction_false_of_time (u : Nat) (v : String)
    (tgt : Option (Nat × Nat)) (t1 t2 : Int) (h : t1 + 60 < t2) :
    isSimilar (newAction u v tgt t1) t2 u v tgt = false := by
  have hn : ¬ (t2 - 60 ≤ t1) := by omega
  simp [isSimilar, newAction, hn]

/-- C2 fails as stated: with the same actor and verb within the window, a
first call with a concrete target (content type 1, object 7) followed by one
with no target at all — two calls that differ in target — returns False on
the second call and stores a single row, because with target None the dedup
query drops the target filter entirely. -/
theorem create_action_target_tuple_counterexample :
    (create_action (create_action [] 0 1 "likes" (some (1, 7))).2 30 1 "likes" none).1
        = false ∧
    (create_action (create_action [] 0 1 "likes" (some (1, 7))).2 30 1 "likes" none).2.length
        = 1 := by
  decide

/-- C2 (amended): for one actor with no prior rows, two in-window calls that
differ in verb, or that differ in target with the second call supplying a
target, both insert a row and both return True. (When the second call omits
the target, the dedup query ignores targets and any same-verb row in the
window suppresses it.) -/
theorem create_action_distinct_key (db : List ActionEntry) (t1 t2 : Int) (u : Nat)
    (v1 v2 : String) (tgt1 tgt2 : Option (Nat × Nat))
    (h0 : ∀ a ∈ db, a.user ≠ u)
    (h12 : t1 ≤ t2) (hw : t2 ≤ t1 + 60)
    (hdiff : v1 ≠ v2 ∨ (tgt1 ≠ tgt2 ∧ tgt2.isSome = true)) :
    (create_action db t1 u v1 tgt1).1 = true ∧
    (create_action (create_action db t1 u v1 tgt1).2 t2 u v2 tgt2).1 = true ∧
    (create_action (create_action db t1 u v1 tgt1).2 t2 u v2 tgt2).2
      = db ++ [newAction u v1 tgt1 t1, newAction u v2 tgt2 t2] := by
  have hdb1 : ∀ a ∈ db, isSimilar a t1 u v1 tgt1 = false := fun a ha =>
    isSimilar_false_of_user a t1 u v1 tgt1 (h0 a ha)
  have hc1 := create_action_inserts db t1 u v1 tgt1 hdb1
  have hall : ∀ a ∈ db ++ [newAction u v1 tgt1 t1], isSimilar a t2 u v2 tgt2 = false := by
    intro a ha
    rcases List.mem_append.mp ha with ha | ha
    · exact isSimilar_false_of_user a t2 u v2 tgt2 (h0 a ha)
    · have he : a = newAction u v1 tgt1 t1 := by simpa using ha
      rw [he]
      rcases hdiff with h | ⟨hne, hs⟩
      · exact isSimilar_newAction_false_of_verb u v1 v2 tgt1 tgt2 t1 t2 h
      · exact isSimilar_newAction_false_of_target u v1 v2 tgt1 tgt2 t1 t2 hne hs
  have hc2 := create_action_inserts (db ++ [newAction u v1 tgt1 t1]) t2 u v2 tgt2 hall
  rw [hc1]
  simp only [hc2]
  refine ⟨trivial, trivial, ?_⟩
  simp

theorem create_action_distinct_key_witness :
    (create_action [] 0 1 "likes" (some (1, 7))).1 = true ∧
    (create_action (create_action [] 0 1 "likes" (some (1, 7))).2 30 1 "likes"
        (some (1, 8))).1 = true ∧
    (create_action (create_action [] 0 1 "likes" (some (1, 7))).2 30 1 "likes"
        (some (1, 8))).2
      = [] ++ [newAction 1 "likes" (some (1, 7)) 0, newAction 1 "likes" (some (1, 8)) 30] :=
  create_action_distinct_key [] 0 30 1 "likes" "likes" (some (1, 7)) (some (1, 8))
    (by simp) (by norm_num) (by norm_num) (Or.inr ⟨by decide, by decide⟩)

theorem create_action_dedup_within_window_witness :
    (create_action [] 0 1 "likes" (some (2, 7))).1 = true ∧
    (create_action (create_action [] 0 1 "likes" (some (2, 7))).2 30 1 "likes"
        (some (2, 7))).1 = false ∧
    (create_action (create_action [] 0 1 "likes" (some (2, 7))).2 30 1 "likes"
        (some (2, 7))).2
      = (create_action [] 0 1 "likes" (some (2, 7))).2 ∧
    ((create_action (create_action [] 0 1 "likes" (some (2, 7))).2 30 1 "likes"
        (some (2, 7))).2.filter
      (fun a => matchesKey a 1 "likes" (some (2, 7)))).length = 1 :=
  create_action_dedup_within_window [] 0 30 1 "likes" (some (2, 7))
    (by simp) (by norm_num) (by norm_num)

/-- C3 fails as stated at the window boundary: a second call exactly 60
seconds after the first (the earliest time "at least 60 seconds after")
still matches `created__gte = now - 60`, so it is suppressed: it returns
False and only one row is stored. -/
theorem create_action_window_boundary_counterexample :
    (create_action (create_action [] 0 1 "likes" none).2 60 1 "likes" none).1 = false ∧
    (create_action (create_action [] 0 1 "likes" none).2 60 1 "likes" none).2.length
      = 1 := by
  decide

/-- C3 (amended): a second identical call strictly more than 60 seconds after
the first call's insertion timestamp is not suppressed — rows whose created
timestamp is strictly older than now − 60 s do not block a new insertion —
so both calls return True and two rows with the key are stored. -/
theorem create_action_after_window (db : List ActionEntry) (t1 t2 : Int) (u : Nat)
    (v : String) (tgt : Option (Nat × Nat))
    (h0 : ∀ a ∈ db, ¬ (a.user = u ∧ a.verb = v))
    (hw : t1 + 60 < t2) :
    (create_action db t1 u v tgt).1 = true ∧
    (create_action (create_action db t1 u v tgt).2 t2 u v tgt).1 = true ∧
    (create_action (create_action db t1 u v tgt).2 t2 u v tgt).2
      = db ++ [newAction u v tgt t1, newAction u v tgt t2] ∧
    ((create_action (create_action db t1 u v tgt).2 t2 u v tgt).2.filter
      (fun a => matchesKey a u v tgt)).length = 2 := by
  have hdb1 : ∀ a ∈ db, isSimilar a t1 u v tgt = false := fun a ha =>
    isSimilar_false_of_key a t1 u v tgt (h0 a ha)
  have hc1 := create_action_inserts db t1 u v tgt hdb1
  have hall : ∀ a ∈ db ++ [newAction u v tgt t1], isSimilar a t2 u v tgt = false := by
    intro a ha
    rcases List.mem_append.mp ha with ha | ha
    · exact isSimilar_false_of_key a t2 u v tgt (h0 a ha)
    · have he : a = newAction u v tgt t1 := by simpa using ha
      rw [he]
      exact isSimilar_newAction_false_of_time u v tgt t1 t2 hw
  have hc2 := create_action_inserts (db ++ [newAction u v tgt t1]) t2 u v tgt hall
  rw [hc1]
  simp only [hc2]
  refine ⟨trivial, trivial, by simp, ?_⟩
  rw [List.filter_append, List.filter_append]
  have hdbnil : db.filter (fun a => matchesKey a u v tgt) = [] := by
    apply List.filter_eq_nil_iff.mpr
    intro a ha
    intro hm
    simp only [matchesKey, Bool.and_eq_true, beq_iff_eq] at hm
    exact (h0 a ha) ⟨hm.1.1.1, hm.1.1.2⟩
  rw [hdbnil]
  simp [matchesKey, newAction]

theorem create_action_after_window_witness :
    (create_action [] 0 1 "likes" none).1 = true ∧
    (create_action (create_action [] 0 1 "likes" none).2 61 1 "likes" none).1 = true ∧
    (create_action (create_action [] 0 1 "likes" none).2 61 1 "likes" none).2
      = [] ++ [newAction 1 "likes" none 0, newAction 1 "likes" none 61] ∧
    ((create_action (create_action [] 0 1 "likes" none).2 61 1 "likes" none).2.filter
      (fun a => matchesKey a 1 "likes" none)).length = 2 :=
  create_action_after_window [] 0 61 1 "likes" none (by simp) (by norm_num)

/-- C6: for a viewer who does not follow themselves (the follow endpoints
never create a self-edge), the dashboard feed selects exactly the spec's
rows, is ordered newest first, and holds at most 10 entries. -/
theorem dashboard_feed (db : List ActionEntry) (viewer : Nat) (following : List Nat)
    (hself : viewer ∉ following) :
    dashboard db viewer following = dashboardSpec db viewer following ∧
    (dashboard db viewer following).Pairwise (fun a b => b.created ≤ a.created) ∧
    (dashboard db viewer following).length ≤ 10 := by
  have heq : dashboard db viewer following = dashboardSpec db viewer following := by
    unfold dashboard dashboardSpec
    cases hf : following.isEmpty with
    | true => simp
    | false =>
      simp only [Bool.false_eq_true, if_false]
      rw [List.filter_filter]
      have hfeq : db.filter (fun a => following.contains a.user && !(a.user == viewer))
          = db.filter (fun a => following.contains a.user) := by
        apply List.filter_congr
        intro a ha
        cases hc : following.contains a.user with
        | false => simp
        | true =>
          have hne : a.user ≠ viewer := by
            intro hv
            rw [hv] at hc
            exact hself (by simpa using hc)
          simp [hne]
      rw [hfeq]
  refine ⟨heq, ?_, ?_⟩
  · have hs := sortLe_pairwise actionLe
      (by
        intro a b hab
        simp only [actionLe, decide_eq_false_iff_not, not_le] at hab
        simp only [actionLe, decide_eq_true_eq]
        omega)
      (by
        intro a b c hab hbc
        simp only [actionLe, decide_eq_true_eq] at hab hbc ⊢
        omega)
      (if following.isEmpty then db.filter (fun a => !(a.user == viewer))
       else (db.filter (fun a => !(a.user == viewer))).filter
         (fun a => following.contains a.user))
    have hsub : List.Sublist (dashboard db viewer following)
        (sortLe actionLe
          (if following.isEmpty then db.filter (fun a => !(a.user == viewer))
           else (db.filter (fun a => !(a.user == viewer))).filter
             (fun a => following.contains a.user))) := by
      unfold dashboard
      exact List.take_sublist 10 _
    have hp := hs.sublist hsub
    exact hp.imp (by
      intro a b h
      simpa [actionLe] using h)
  · unfold dashboard
    simpa using List.length_take_le 10 _

theorem dashboard_feed_witness :
    dashboard [⟨2, "likes", none, none, 5⟩, ⟨1, "likes", none, none, 3⟩] 1 [2]
      = dashboardSpec [⟨2, "likes", none, none, 5⟩, ⟨1, "likes", none, none, 3⟩] 1 [2] ∧
    (dashboard [⟨2, "likes", none, none, 5⟩, ⟨1, "likes", none, none, 3⟩] 1
        [2]).Pairwise (fun a b => b.created ≤ a.created) ∧
    (dashboard [⟨2, "likes", none, none, 5⟩, ⟨1, "likes", none, none, 3⟩] 1
        [2]).length ≤ 10 :=
  dashboard_feed [⟨2, "likes", none, none, 5⟩, ⟨1, "likes", none, none, 3⟩] 1 [2]
    (by decide)

/-- C7: if the Redis client is unreachable, both `record_view` and
`image_ranking` return the store's own error unchanged — never a masked
zero or empty result. -/
theorem redis_unreachable_propagates (r : Redis) (e : Nat) (db : List ImageRec)
    (h : r.available = false) :
    record_view r e = .error connectionError ∧
    image_ranking r db = .error connectionError := by
  constructor
  · unfold record_view Redis.incr
    rw [h]
    rfl
  · unfold image_ranking Redis.zrangeDesc
    rw [h]
    rfl

theorem redis_unreachable_propagates_witness :
    record_view ⟨false, fun _ => 0, []⟩ 42 = .error connectionError ∧
    image_ranking ⟨false, fun _ => 0, []⟩ [] = .error connectionError :=
  redis_unreachable_propagates ⟨false, fun _ => 0, []⟩ 42 [] rfl

theorem except_bind_ok {A B : Type} (x : A) (f : A → Except String B) :
    (Except.ok x >>= f) = f x := rfl

theorem zscore_zsetIncr (l : List (Nat × Int)) (delta : Int) (m : Nat) :
    zscore (zsetIncr l delta m) m = some ((zscore l m).getD 0 + delta) := by
  induction l with
  | nil => simp [zsetIncr, zscore, List.find?]
  | cons p rest ih =>
    cases p with
    | mk a s =>
      by_cases hm : a = m
      · subst hm
        simp [zsetIncr, zscore, List.find?]
      · have h1 : zscore ((a, s) :: rest) m = zscore rest m := by
          unfold zscore
          rw [List.find?_cons_of_neg _ (by simpa using hm)]
        have h2 : zscore ((a, s) :: zsetIncr rest delta m) m
            = zscore (zsetIncr rest delta m) m := by
          unfold zscore
          rw [List.find?_cons_of_neg _ (by simpa using hm)]
        have h3 : zsetIncr ((a, s) :: rest) delta m = (a, s) :: zsetIncr rest delta m := by
          simp [zsetIncr, hm]
        rw [h3, h2, h1, ih]

theorem record_view_step (s : Redis) (e : Nat) (h : s.available = true) :
    ∃ s', record_view s e = .ok (s.views e + 1, s') ∧
      s'.available = true ∧
      s'.views e = s.views e + 1 ∧
      zscore s'.zset e = some ((zscore s.zset e).getD 0 + 1) := by
  refine ⟨{ s with
      views := fun k => if k = e then s.views e + 1 else s.views k,
      zset := zsetIncr s.zset 1 e }, ?_, h, by simp, ?_⟩
  · unfold record_view Redis.incr Redis.zincrby
    rw [h]
    rfl
  · exact zscore_zsetIncr s.zset 1 e

theorem record_view_iter_spec (e : Nat) (k : Nat) :
    ∀ s : Redis, s.available = true →
      ∃ s', record_view_iter s e (k + 1) = .ok (s.views e + (k + 1), s') ∧
        s'.available = true ∧
        s'.views e = s.views e + (k + 1) ∧
        zscore s'.zset e = some ((zscore s.zset e).getD 0 + (k + 1 : Int)) := by
  induction k with
  | zero =>
    intro s hs
    obtain ⟨s', h1, h2, h3, h4⟩ := record_view_step s e hs
    refine ⟨s', ?_, h2, h3, by simpa using h4⟩
    simp only [record_view_iter, h1, except_bind_ok]
    rw [h3]
  | succ n ih =>
    intro s hs
    obtain ⟨s1, h1, h2, h3, h4⟩ := record_view_step s e hs
    obtain ⟨s', g1, g2, g3, g4⟩ := ih s1 h2
    refine ⟨s', ?_, g2, ?_, ?_⟩
    · have hstep : record_view_iter s e (n + 1 + 1) = record_view_iter s1 e (n + 1) := by
        simp only [record_view_iter, h1, except_bind_ok]
      rw [hstep, g1, h3]
      congr 2
      omega
    · rw [g3, h3]
      omega
    · rw [g4, h4]
      simp only [Option.getD_some]
      congr 1
      push_cast
      ring

/-- C4: with the store reachable, `record_view` increments the per-image
counter by 1 and the image's ranking score by 1 and returns the new counter
value; k sequential calls on a fresh image e return k as the final counter
value and leave e's ranking score at k. -/
theorem record_view_counts (r : Redis) (e : Nat) (k : Nat)
    (hav : r.available = true) (hv : r.views e = 0)
    (hz : zscore r.zset e = none) (hk : 1 ≤ k) :
    (∀ s : Redis, s.available = true →
      ∃ s', record_view s e = .ok (s.views e + 1, s') ∧
        s'.views e = s.views e + 1 ∧
        zscore s'.zset e = some ((zscore s.zset e).getD 0 + 1)) ∧
    (∃ r', record_view_iter r e k = .ok (k, r') ∧ r'.views e = k ∧
      zscore r'.zset e = some (k : Int)) := by
  constructor
  · intro s hs
    obtain ⟨s', h1, _, h3, h4⟩ := record_view_step s e hs
    exact ⟨s', h1, h3, h4⟩
  · obtain ⟨m, rfl⟩ : ∃ m, k = m + 1 := ⟨k - 1, by omega⟩
    obtain ⟨r', h1, _, h3, h4⟩ := record_view_iter_spec e m r hav
    rw [hv] at h1 h3
    rw [hz] at h4
    refine ⟨r', by simpa using h1, by simpa using h3, ?_⟩
    rw [h4]
    simp

theorem record_view_counts_witness :
    (∀ s : Redis, s.available = true →
      ∃ s', record_view s 42 = .ok (s.views 42 + 1, s') ∧
        s'.views 42 = s.views 42 + 1 ∧
        zscore s'.zset 42 = some ((zscore s.zset 42).getD 0 + 1)) ∧
    (∃ r', record_view_iter ⟨true, fun _ => 0, []⟩ 42 3 = .ok (3, r') ∧
      r'.views 42 = 3 ∧ zscore r'.zset 42 = some (3 : Int)) :=
  record_view_counts ⟨true, fun _ => 0, []⟩ 42 3 rfl rfl rfl (by norm_num)

theorem listIndex_cons (i r : Nat) (l : List Nat) :
    listIndex i (r :: l) = if i = r then 0 else listIndex i l + 1 := rfl

theorem listIndex_ne_cons (i r : Nat) (l : List Nat) (h : i ≠ r) :
    listIndex i (r :: l) = listIndex i l + 1 := by
  rw [listIndex_cons, if_neg h]

/-- A list of records with pairwise-distinct ids, all of whose ids occur in
`R`, sorted by position of the id in `R`: its ids are exactly the members of
`R` that occur among them, in `R`'s order. -/
theorem rank_filter (R : List Nat) :
    ∀ S : List ImageRec, R.Nodup → (S.map (·.id)).Nodup →
      (∀ x ∈ S, x.id ∈ R) →
      S.Pairwise (fun x y => listIndex x.id R ≤ listIndex y.id R) →
      S.map (·.id) = R.filter (fun i => (S.map (·.id)).contains i) := by
  induction R with
  | nil =>
    intro S _ _ hsub _
    cases S with
    | nil => simp
    | cons x S' => exact absurd (hsub x (List.mem_cons_self x S')) (List.not_mem_nil _)
  | cons r R' ih =>
    intro S hR hS hsub hsor
    have hrR' : r ∉ R' := (List.nodup_cons.mp hR).1
    have hR' : R'.Nodup := (List.nodup_cons.mp hR).2
    cases S with
    | nil => simp
    | cons x S' =>
      have hxid : x.id ∉ S'.map (·.id) := (List.nodup_cons.mp hS).1
      have hS' : (S'.map (·.id)).Nodup := (List.nodup_cons.mp hS).2
      have hhead : ∀ y ∈ S', listIndex x.id (r :: R') ≤ listIndex y.id (r :: R') :=
        fun y hy => (List.pairwise_cons.mp hsor).1 y hy
      have hsor' : S'.Pairwise
          (fun a b => listIndex a.id (r :: R') ≤ listIndex b.id (r :: R')) :=
        (List.pairwise_cons.mp hsor).2
      by_cases hx : x.id = r
      · -- head of S is the earliest ranked id
        have hS'ne : ∀ y ∈ S', y.id ≠ r := by
          intro y hy hyr
          exact hxid (by
            rw [← hx] at hyr
            exact hyr ▸ List.mem_map_of_mem (·.id) hy)
        have hsub' : ∀ y ∈ S', y.id ∈ R' := by
          intro y hy
          rcases List.mem_cons.mp (hsub y (List.mem_cons_of_mem x hy)) with h | h
          · exact absurd h (hS'ne y hy)
          · exact h
        have hsorR' : S'.Pairwise
            (fun a b => listIndex a.id R' ≤ listIndex b.id R') := by
          refine hsor'.imp_of_mem ?_
          intro a b ha hb hle
          rw [listIndex_ne_cons a.id r R' (hS'ne a ha),
              listIndex_ne_cons b.id r R' (hS'ne b hb)] at hle
          omega
        have hres := ih S' hR' hS' hsub' hsorR'
        have hpr : ((x :: S').map (·.id)).contains r = true := by
          simp [← hx]
        have hfc : R'.filter (fun i => ((x :: S').map (·.id)).contains i)
            = R'.filter (fun i => (S'.map (·.id)).contains i) := by
          apply List.filter_congr
          intro i hi
          have hir : i ≠ x.id := by
            intro hcon
            rw [hx] at hcon
            exact hrR' (hcon ▸ hi)
          rw [List.map_cons, List.contains_cons]
          simp [hir]
        rw [List.filter_cons, hpr]
        simp only [if_true]
        rw [hfc, ← hres, List.map_cons, hx]
      · -- r is ranked before every id of S, so it is absent from S
        have hrS : ∀ y ∈ x :: S', y.id ≠ r := by
          intro y hy hyr
          rcases List.mem_cons.mp hy with h | h
          · rw [h] at hyr; exact hx hyr
          · have h0 := hhead y h
            rw [hyr] at h0
            rw [listIndex_cons r r R', if_pos rfl] at h0
            rw [listIndex_ne_cons x.id r R' hx] at h0
            omega
        have hsub' : ∀ y ∈ x :: S', y.id ∈ R' := by
          intro y hy
          rcases List.mem_cons.mp (hsub y hy) with h | h
          · exact absurd h (hrS y hy)
          · exact h
        have hsorR' : (x :: S').Pairwise
            (fun a b => listIndex a.id R' ≤ listIndex b.id R') := by
          refine hsor.imp_of_mem ?_
          intro a b ha hb hle
          rw [listIndex_ne_cons a.id r R' (hrS a ha),
              listIndex_ne_cons b.id r R' (hrS b hb)] at hle
          omega
        have hres := ih (x :: S') hR' hS hsub' hsorR'
        have hpr : ((x :: S').map (·.id)).contains r = false := by
          rw [List.contains_eq_any_beq]
          rw [List.any_eq_false]
          intro i hi
          rcases List.mem_map.mp hi with ⟨y, hy, rfl⟩
          simpa using (hrS y hy).symm
        rw [List.filter_cons, hpr]
        simp only [Bool.false_eq_true, if_false]
        exact hres

theorem nat_contains_iff (l : List Nat) (a : Nat) : l.contains a = true ↔ a ∈ l := by
  induction l with
  | nil => simp
  | cons b bs ih => simp [List.contains_cons, ih]

/-- C5: with distinct relational ids and distinct sorted-set members,
`image_ranking` succeeds with at most 10 records whose id sequence is
exactly the descending-score ranking restricted to ids still present in
the relational store (deleted ids silently dropped), every returned record
coming from the store, and the ranking read being score-descending. -/
theorem image_ranking_merge (r : Redis) (db : List ImageRec)
    (hav : r.available = true)
    (hdb : (db.map (·.id)).Nodup)
    (hzn : (r.zset.map (·.1)).Nodup) :
    ∃ out, image_ranking r db = .ok out ∧
      out.length ≤ 10 ∧
      out.map (·.id)
        = (rankingIds r).filter (fun i => (db.map (·.id)).contains i) ∧
      (∀ img ∈ out, img ∈ db) ∧
      (sortLe scoreLe r.zset).Pairwise (fun a b => b.2 ≤ a.2) := by
  refine ⟨sortLe (imageKeyLe (rankingIds r))
      (db.filter fun img => (rankingIds r).contains img.id), ?_, ?_, ?_, ?_, ?_⟩
  case _ =>
    unfold image_ranking Redis.zrangeDesc rankingIds
    rw [hav]
    rfl
  all_goals {
    have hperm : (sortLe (imageKeyLe (rankingIds r))
        (db.filter fun img => (rankingIds r).contains img.id)).Perm
        (db.filter fun img => (rankingIds r).contains img.id) :=
      sortLe_perm _ _
    have hidsnodup : (rankingIds r).Nodup := by
      have hp0 : ((sortLe scoreLe r.zset).map (·.1)).Perm (r.zset.map (·.1)) :=
        (sortLe_perm scoreLe r.zset).map _
      exact ((hp0.nodup_iff).mpr hzn).sublist (List.take_sublist 10 _)
    have hMnodup : ((db.filter fun img => (rankingIds r).contains img.id).map
        (·.id)).Nodup :=
      hdb.sublist ((List.filter_sublist db).map (·.id))
    have houtnodup : ((sortLe (imageKeyLe (rankingIds r))
        (db.filter fun img => (rankingIds r).contains img.id)).map (·.id)).Nodup :=
      ((hperm.map _).nodup_iff).mpr hMnodup
    have houtsub : ∀ x ∈ sortLe (imageKeyLe (rankingIds r))
        (db.filter fun img => (rankingIds r).contains img.id), x.id ∈ rankingIds r := by
      intro x hx
      have hxM := hperm.mem_iff.mp hx
      have := (List.mem_filter.mp hxM).2
      exact (nat_contains_iff _ _).mp this
    have hsorted : (sortLe (imageKeyLe (rankingIds r))
        (db.filter fun img => (rankingIds r).contains img.id)).Pairwise
        (fun x y => listIndex x.id (rankingIds r) ≤ listIndex y.id (rankingIds r)) := by
      have h := sortLe_pairwise (imageKeyLe (rankingIds r))
        (by
          intro a b hab
          simp only [imageKeyLe, decide_eq_false_iff_not, not_le] at hab
          simp only [imageKeyLe, decide_eq_true_eq]
          omega)
        (by
          intro a b c hab hbc
          simp only [imageKeyLe, decide_eq_true_eq] at hab hbc ⊢
          omega)
        (db.filter fun img => (rankingIds r).contains img.id)
      exact h.imp (by
        intro a b hab
        simpa [imageKeyLe] using hab)
    have hmain : (sortLe (imageKeyLe (rankingIds r))
        (db.filter fun img => (rankingIds r).contains img.id)).map (·.id)
        = (rankingIds r).filter
            (fun i => (db.map (·.id)).contains i) := by
      have h0 := rank_filter (rankingIds r) _ hidsnodup houtnodup houtsub hsorted
      rw [h0]
      apply List.filter_congr
      intro i hi
      rw [Bool.eq_iff_iff, nat_contains_iff, nat_contains_iff]
      constructor
      · intro hmem
        rcases List.mem_map.mp hmem with ⟨x, hx, rfl⟩
        have hxM := hperm.mem_iff.mp hx
        exact List.mem_map_of_mem _ (List.mem_filter.mp hxM).1
      · intro hmem
        rcases List.mem_map.mp hmem with ⟨x, hx, rfl⟩
        have hxM : x ∈ db.filter fun img => (rankingIds r).contains img.id := by
          apply List.mem_filter.mpr
          exact ⟨hx, (nat_contains_iff _ _).mpr hi⟩
        exact List.mem_map_of_mem _ (hperm.mem_iff.mpr hxM)
    first
    | -- length bound
      (calc (sortLe (imageKeyLe (rankingIds r))
            (db.filter fun img => (rankingIds r).contains img.id)).length
          = ((sortLe (imageKeyLe (rankingIds r))
            (db.filter fun img => (rankingIds r).contains img.id)).map (·.id)).length :=
            (List.length_map _ _).symm
        _ = ((rankingIds r).filter (fun i => (db.map (·.id)).contains i)).length := by
            rw [hmain]
        _ ≤ (rankingIds r).length := List.length_filter_le _ _
        _ ≤ 10 := List.length_take_le 10 _)
    | exact hmain
    | -- membership in db
      (intro img hx
       exact (List.mem_filter.mp (hperm.mem_iff.mp hx)).1)
    | -- descending scores
      (exact (sortLe_pairwise scoreLe
        (by
          intro a b hab
          simp only [scoreLe, decide_eq_false_iff_not, not_le] at hab
          simp only [scoreLe, decide_eq_true_eq]
          omega)
        (by
          intro a b c hab hbc
          simp only [scoreLe, decide_eq_true_eq] at hab hbc ⊢
          omega)
        r.zset).imp (by
          intro a b hab
          simpa [scoreLe] using hab))
  }

theorem image_ranking_merge_witness :
    ∃ out, image_ranking ⟨true, fun _ => 0, [(1, 5), (2, 9), (3, 2)]⟩
        [⟨2, [], 0⟩, ⟨1, [], 0⟩] = .ok out ∧
      out.length ≤ 10 ∧
      out.map (·.id)
        = (rankingIds ⟨true, fun _ => 0, [(1, 5), (2, 9), (3, 2)]⟩).filter
            (fun i => ((([⟨2, [], 0⟩, ⟨1, [], 0⟩] : List ImageRec)).map
              (·.id)).contains i) ∧
      (∀ img ∈ out, img ∈ ([⟨2, [], 0⟩, ⟨1, [], 0⟩] : List ImageRec)) ∧
      (sortLe scoreLe (Redis.mk true (fun _ => 0) [(1, 5), (2, 9), (3, 2)]).zset).Pairwise
        (fun a b => b.2 ≤ a.2) :=
  image_ranking_merge ⟨true, fun _ => 0, [(1, 5), (2, 9), (3, 2)]⟩
    [⟨2, [], 0⟩, ⟨1, [], 0⟩] rfl (by decide) (by decide)

/-- C8: the signal re-establishes `total_likes = |users_like|` on every like
and unlike — directly for `addLike`/`removeLike` on any image with a
duplicate-free like set, and for every image stored after an `image_like`
call when every stored image satisfied the invariant before. -/
theorem total_likes_invariant (images : List ImageRec) (actions : List ActionEntry)
    (now : Int) (uid : Nat) (iid : Option Nat) (act : Option String)
    (img : ImageRec) (u : Nat)
    (hn : img.usersLike.Nodup)
    (hinv : ∀ i ∈ images, i.totalLikes = i.usersLike.length ∧ i.usersLike.Nodup) :
    ((addLike img u).totalLikes = (addLike img u).usersLike.length ∧
     (addLike img u).usersLike.Nodup ∧
     (removeLike img u).totalLikes = (removeLike img u).usersLike.length ∧
     (removeLike img u).usersLike.Nodup) ∧
    (∀ i ∈ (image_like images actions now uid iid act).2.1,
      i.totalLikes = i.usersLike.length ∧ i.usersLike.Nodup) := by
  have haddinv : ∀ j : ImageRec, ∀ w : Nat, j.usersLike.Nodup →
      (addLike j w).totalLikes = (addLike j w).usersLike.length ∧
      (addLike j w).usersLike.Nodup := by
    intro j w hj
    refine ⟨rfl, ?_⟩
    by_cases hc : j.usersLike.contains w
    · simp only [addLike, users_like_changed, hc, if_true]
      exact hj
    · have hw : w ∉ j.usersLike := fun hm => hc ((nat_contains_iff _ _).mpr hm)
      have hcf : j.usersLike.contains w = false := by
        cases h : j.usersLike.contains w with
        | false => rfl
        | true => exact absurd h hc
      simp only [addLike, users_like_changed, hcf, Bool.false_eq_true, if_false]
      simp [List.nodup_append, hj, hw]
  have hreminv : ∀ j : ImageRec, ∀ w : Nat, j.usersLike.Nodup →
      (removeLike j w).totalLikes = (removeLike j w).usersLike.length ∧
      (removeLike j w).usersLike.Nodup := by
    intro j w hj
    exact ⟨rfl, hj.filter _⟩
  obtain ⟨ha1, ha2⟩ := haddinv img u hn
  obtain ⟨hr1, hr2⟩ := hreminv img u hn
  refine ⟨⟨ha1, ha2, hr1, hr2⟩, ?_⟩
  intro i hi
  cases iid with
  | none => exact hinv i hi
  | some iid0 =>
    cases act with
    | none => exact hinv i hi
    | some act0 =>
      simp only [image_like] at hi
      by_cases hemp : (act0 == "") = true
      · rw [if_pos hemp] at hi
        exact hinv i hi
      · rw [if_neg hemp] at hi
        by_cases hany : images.any (fun img => img.id == iid0) = true
        · rw [if_pos hany] at hi
          by_cases hl : (act0 == "like") = true
          · rw [if_pos hl] at hi
            simp only at hi
            rcases List.mem_map.mp hi with ⟨i0, hi0, rfl⟩
            by_cases hid : (i0.id == iid0) = true
            · simp only [hid, if_true]
              exact haddinv i0 uid (hinv i0 hi0).2
            · simp only [hid, Bool.false_eq_true, if_false]
              exact hinv i0 hi0
          · rw [if_neg hl] at hi
            simp only at hi
            rcases List.mem_map.mp hi with ⟨i0, hi0, rfl⟩
            by_cases hid : (i0.id == iid0) = true
            · simp only [hid, if_true]
              exact hreminv i0 uid (hinv i0 hi0).2
            · simp only [hid, Bool.false_eq_true, if_false]
              exact hinv i0 hi0
        · rw [if_neg hany] at hi
          exact hinv i hi

theorem total_likes_invariant_witness :
    ((addLike ⟨7, [4], 1⟩ 5).totalLikes = (addLike ⟨7, [4], 1⟩ 5).usersLike.length ∧
     (addLike ⟨7, [4], 1⟩ 5).usersLike.Nodup ∧
     (removeLike ⟨7, [4], 1⟩ 5).totalLikes
       = (removeLike ⟨7, [4], 1⟩ 5).usersLike.length ∧
     (removeLike ⟨7, [4], 1⟩ 5).usersLike.Nodup) ∧
    (∀ i ∈ (image_like [⟨7, [4], 1⟩] [] 0 5 (some 7) (some "like")).2.1,
      i.totalLikes = i.usersLike.length ∧ i.usersLike.Nodup) :=
  total_likes_invariant [⟨7, [4], 1⟩] [] 0 5 (some 7) (some "like") ⟨7, [4], 1⟩ 5
    (by decide) (by decide)

/-- C10 fails as stated: a present but empty action parameter is falsy in
the guard `if image_id and action:`, so with a stored image and action ''
(which differs from 'like') the view answers {'status': 'error'} and
changes nothing — not an unlike answering 'ok'. -/
theorem image_like_empty_action_counterexample :
    image_like [⟨7, [5], 1⟩] [] 0 5 (some 7) (some "")
      = ("error", [⟨7, [5], 1⟩], []) ∧
    "" ≠ "like" := by
  constructor
  · rfl
  · decide

/-- C10 (amended): `image_like` treats any non-empty action value other
than the exact string 'like' as an unlike — it removes the requesting user
from the image's likes and answers 'ok' — while a missing or empty image id
parameter, a missing or empty action parameter, or a reference to an absent
image answers 'error' and leaves both the image table and the action table
unchanged. -/
theorem image_like_error_paths (images : List ImageRec) (actions : List ActionEntry)
    (now : Int) (uid : Nat) :
    (∀ iid act, act ≠ "like" → act ≠ "" →
       images.any (fun img => img.id == iid) = true →
       (image_like images actions now uid (some iid) (some act)).1 = "ok" ∧
       (image_like images actions now uid (some iid) (some act)).2.1
         = images.map (fun img => if img.id == iid then removeLike img uid else img) ∧
       (image_like images actions now uid (some iid) (some act)).2.2 = actions ∧
       (∀ i ∈ (image_like images actions now uid (some iid) (some act)).2.1,
          i.id = iid → uid ∉ i.usersLike)) ∧
    (∀ act, image_like images actions now uid none act = ("error", images, actions)) ∧
    (∀ iid, image_like images actions now uid (some iid) none
      = ("error", images, actions)) ∧
    (∀ iid, image_like images actions now uid (some iid) (some "")
      = ("error", images, actions)) ∧
    (∀ iid act, images.any (fun img => img.id == iid) = false →
       image_like images actions now uid (some iid) (some act)
         = ("error", images, actions)) := by
  refine ⟨?_, ?_, ?_, ?_, ?_⟩
  · intro iid act hact hemp hany
    have hl : (act == "like") = false := by
      cases h : act == "like" with
      | false => rfl
      | true => exact absurd (by simpa using h) hact
    have hef : (act == "") = false := by
      cases h : act == "" with
      | false => rfl
      | true => exact absurd (by simpa using h) hemp
    have hexp : image_like images actions now uid (some iid) (some act)
        = ("ok",
           images.map (fun img => if img.id == iid then removeLike img uid else img),
           actions) := by
      simp only [image_like, hef, Bool.false_eq_true, if_false, hany, if_true, hl]
    rw [hexp]
    refine ⟨rfl, rfl, rfl, ?_⟩
    intro i hi hid hmem
    rcases List.mem_map.mp hi with ⟨i0, hi0, rfl⟩
    by_cases h0 : (i0.id == iid) = true
    · rw [if_pos h0] at hmem hid
      have : uid ∈ (removeLike i0 uid).usersLike := hmem
      simp only [removeLike, users_like_changed] at this
      rcases List.mem_filter.mp this with ⟨_, hbad⟩
      simp at hbad
    · rw [if_neg h0] at hmem hid
      exact h0 (by simpa using hid)
  · intro act
    cases act <;> rfl
  · intro iid
    rfl
  · intro iid
    rfl
  · intro iid act hany
    by_cases hemp : (act == "") = true
    · simp only [image_like, hemp, if_true]
    · have hef : (act == "") = false := by
        cases h : act == "" with
        | false => rfl
        | true => exact absurd h hemp
      simp only [image_like, hef, Bool.false_eq_true, if_false, hany]

theorem image_like_error_paths_witness :
    (∀ iid act, act ≠ "like" → act ≠ "" →
       (([⟨7, [5], 1⟩] : List ImageRec)).any (fun img => img.id == iid) = true →
       (image_like [⟨7, [5], 1⟩] [] 0 5 (some iid) (some act)).1 = "ok" ∧
       (image_like [⟨7, [5], 1⟩] [] 0 5 (some iid) (some act)).2.1
         = ([⟨7, [5], 1⟩] : List ImageRec).map
             (fun img => if img.id == iid then removeLike img 5 else img) ∧
       (image_like [⟨7, [5], 1⟩] [] 0 5 (some iid) (some act)).2.2 = [] ∧
       (∀ i ∈ (image_like [⟨7, [5], 1⟩] [] 0 5 (some iid) (some act)).2.1,
          i.id = iid → 5 ∉ i.usersLike)) ∧
    (∀ act, image_like [⟨7, [5], 1⟩] [] 0 5 none act = ("error", [⟨7, [5], 1⟩], [])) ∧
    (∀ iid, image_like [⟨7, [5], 1⟩] [] 0 5 (some iid) none
      = ("error", [⟨7, [5], 1⟩], [])) ∧
    (∀ iid, image_like [⟨7, [5], 1⟩] [] 0 5 (some iid) (some "")
      = ("error", [⟨7, [5], 1⟩], [])) ∧
    (∀ iid act, ([⟨7, [5], 1⟩] : List ImageRec).any (fun img => img.id == iid) = false →
       image_like [⟨7, [5], 1⟩] [] 0 5 (some iid) (some act)
         = ("error", [⟨7, [5], 1⟩], [])) :=
  image_like_error_paths [⟨7, [5], 1⟩] [] 0 5

/-- C9: following or unfollowing one's own username, or posting no
username, changes nothing and still answers the success message; and in
every reachable contact-table state no user follows themselves. -/
theorem no_self_follow (users : List Nat) (contacts : List (Nat × Nat)) (req : Nat)
    (hreq : req ∈ users) :
    user_follow users contacts req (some req)
      = ("User followed successfully", contacts) ∧
    user_unfollow users contacts req (some req)
      = ("User unfollowed successfully", contacts) ∧
    user_follow users contacts req none
      = ("User followed successfully", contacts) ∧
    user_unfollow users contacts req none
      = ("User unfollowed successfully", contacts) ∧
    (∀ c, ReachableContacts users c → ∀ u, (u, u) ∉ c) := by
  have hcu : users.contains req = true := (nat_contains_iff users req).mpr hreq
  refine ⟨?_, ?_, rfl, rfl, ?_⟩
  · simp [user_follow, hcu, hreq]
  · simp [user_unfollow, hcu, hreq]
  · intro c hc
    induction hc with
    | init => intro u hu; exact List.not_mem_nil _ hu
    | follow c0 req0 uname0 hc0 ih =>
      intro u hu
      cases uname0 with
      | none => exact ih u hu
      | some un =>
        simp only [user_follow] at hu
        by_cases h1 : users.contains un = true
        · rw [if_pos h1] at hu
          by_cases h2 : req0 ≠ un
          · rw [if_pos h2] at hu
            simp only at hu
            by_cases h3 : c0.contains (req0, un) = true
            · rw [if_pos h3] at hu
              exact ih u hu
            · rw [if_neg h3] at hu
              rcases List.mem_append.mp hu with hu | hu
              · exact ih u hu
              · have : (u, u) = (req0, un) := by simpa using hu
                have h4 : u = req0 := congrArg Prod.fst this
                have h5 : u = un := congrArg Prod.snd this
                exact h2 (h4 ▸ h5)
          · rw [if_neg h2] at hu
            exact ih u hu
        · rw [if_neg h1] at hu
          exact ih u hu
    | unfollow c0 req0 uname0 hc0 ih =>
      intro u hu
      cases uname0 with
      | none => exact ih u hu
      | some un =>
        simp only [user_unfollow] at hu
        by_cases h1 : users.contains un = true
        · rw [if_pos h1] at hu
          by_cases h2 : req0 ≠ un
          · rw [if_pos h2] at hu
            simp only at hu
            exact ih u (List.mem_filter.mp hu).1
          · rw [if_neg h2] at hu
            exact ih u hu
        · rw [if_neg h1] at hu
          exact ih u hu

theorem no_self_follow_witness :
    user_follow [1, 2] [(1, 2)] 1 (some 1)
      = ("User followed successfully", [(1, 2)]) ∧
    user_unfollow [1, 2] [(1, 2)] 1 (some 1)
      = ("User unfollowed successfully", [(1, 2)]) ∧
    user_follow [1, 2] [(1, 2)] 1 none
      = ("User followed successfully", [(1, 2)]) ∧
    user_unfollow [1, 2] [(1, 2)] 1 none
      = ("User unfollowed successfully", [(1, 2)]) ∧
    (∀ c, ReachableContacts [1, 2] c → ∀ u, (u, u) ∉ c) :=
  no_self_follow [1, 2] [(1, 2)] 1 (by decide)
